import Mathlib

namespace DiscordI18n

/-- Errors raised by the library.  `keyError` and `valueError` model Python's
built-in `KeyError` and `ValueError`; `indexError` models `IndexError`; the
remaining constructors model the exception classes of `exceptions.py`, all of
which subclass `KeyError`. -/
inductive PyErr where
  | invalidLocale (locale : String)
  | invalidFallback (fallback : String)
  | invalidTranslationKey (key locale fallback : String)
  | translationKeyEmpty (key code : String)
  | keyError (name : String)
  | valueError
  | indexError
  | attributeError (attr : String)
  | typeError
  deriving DecidableEq, Repr

deriving instance DecidableEq for Except

/-- Lookup in a Python dict represented as an insertion-ordered association
list: a later binding of the same key overrides an earlier one. -/
def dget {α : Type} : List (String × α) → String → Option α
  | [], _ => none
  | p :: rest, k =>
    match dget rest k with
    | some v => some v
    | none => if p.1 = k then some p.2 else none

/-- Decimal value of a digit-only character run, as CPython's field parser
reads an explicit positional or element index. -/
def digitsToNat (cs : List Char) : Nat :=
  cs.foldl (fun n c => n * 10 + (c.toNat - 48)) 0

mutual
/-- The attribute and index accessors that may follow a field's first name
segment (`field_name ::= arg_name ("." attr | "[" index "]")*`), applied to
the resolved value, which here is always a string.  `.attr` on a string
raises `AttributeError` (this abstracts away the corner where `attr` names
one of `str`'s own methods, whose formatted rendering embeds a memory address
and is not a function of the template and mapping; nothing below depends on
that corner).  `[index]` with a digit-only index selects the character at
that position — a length-1 string in Python — or raises `IndexError` out of
range; a non-digit index on a string raises `TypeError`; an empty attribute
or index, a missing `]`, and any character other than `.` or `[` after a
`]` raise `ValueError` exactly as CPython's parser does. -/
def applyAccessors (v : String) : List Char → Except PyErr String
  | [] => .ok v
  | '.' :: rest =>
    let attr := rest.takeWhile (fun c => c != '.' && c != '[')
    if attr.isEmpty then .error .valueError
    else .error (.attributeError (String.mk attr))
  | '[' :: rest => idxLoop v [] rest
  | _ :: _ => .error .valueError

/-- Reading an `[index]` accessor: accumulate until the closing `]`, then
index into the string. -/
def idxLoop (v : String) (acc : List Char) : List Char → Except PyErr String
  | [] => .error .valueError
  | ']' :: rest =>
    if acc.isEmpty then .error .valueError
    else if acc.reverse.all Char.isDigit then
      match v.data.get? (digitsToNat acc.reverse) with
      | some c => applyAccessors (String.mk [c]) rest
      | none => .error .indexError
    else .error .typeError
  | c :: rest => idxLoop v (c :: acc) rest
end

/-- Resolution of one replacement field, the characters between `\x7b` and
the closing `\x7d`.  CPython splits the field name at the first `.` or `[`:
the leading `arg_name` is positional when empty or digit-only — with no
positional arguments (`format_map`, or `format(**mapping)`) that raises
`IndexError` — and is otherwise looked up in the mapping, where a missing
name raises `KeyError` in `strict` mode (`str.format(**mapping)`) and
produces the braced name in non-strict mode (`format_map` over the library's
`SafeDict`, whose `__missing__` returns the braced key); the remaining
accessors are then applied to the resolved value. -/
def parseField (strict : Bool) (lk : String → Option String)
    (fieldChars : List Char) : Except PyErr String :=
  let nameChars := fieldChars.takeWhile (fun c => c != '.' && c != '[')
  let rest := fieldChars.dropWhile (fun c => c != '.' && c != '[')
  match (if nameChars.all Char.isDigit then .error .indexError
    else
      match lk (String.mk nameChars) with
      | some v => .ok v
      | none =>
        if strict then .error (.keyError (String.mk nameChars))
        else .ok ("\x7b" ++ String.mk nameChars ++ "\x7d") : Except PyErr String) with
  | .error e => .error e
  | .ok v => applyAccessors v rest

/-- One scanning pass of Python `str.format` or `str.format_map`: literal
text, the escapes `\x7b\x7b` and `\x7d\x7d`, and replacement fields resolved
by `parseField` (a conversion `!` or format spec `:` outside an index is
treated as a markup error; the library's templates use neither).  The state
is `none` while scanning literal text and `some (acc, inB)` while collecting
a field, with `acc` holding the collected characters in reverse and `inB`
tracking whether the scan is inside an `[index]`, where `:` and `!` are
ordinary characters.  `strict = true` models `str.format(**mapping)`,
`strict = false` models `format_map` over `SafeDict` from `language.py`. -/
def fmtAux (strict : Bool) (lk : String → Option String) :
    Option (List Char × Bool) → List Char → Except PyErr (List Char)
  | none, [] => .ok []
  | some _, [] => .error .valueError
  | none, c :: cs =>
    if c = '{' then
      match cs with
      | [] => .error .valueError
      | c2 :: cs2 =>
        if c2 = '{' then (fmtAux strict lk none cs2).map (fun s => '{' :: s)
        else fmtAux strict lk (some ([], false)) (c2 :: cs2)
    else if c = '}' then
      match cs with
      | [] => .error .valueError
      | c2 :: cs2 =>
        if c2 = '}' then (fmtAux strict lk none cs2).map (fun s => '}' :: s)
        else .error .valueError
    else (fmtAux strict lk none cs).map (fun s => c :: s)
  | some (acc, inB), c :: cs =>
    if c = '}' then
      match parseField strict lk acc.reverse with
      | .ok v => (fmtAux strict lk none cs).map (fun s => v.data ++ s)
      | .error e => .error e
    else if c = '{' then .error .valueError
    else if (c = ':' ∨ c = '!') ∧ inB = false then .error .valueError
    else
      fmtAux strict lk
        (some (c :: acc, if c = '[' then true else if c = ']' then false else inB)) cs

/-- Python `template.format_map(mapping)` (for `strict = false`) or
`template.format(**mapping)` (for `strict = true`) on a template string. -/
def pyFormat (strict : Bool) (lk : String → Option String) (s : String) :
    Except PyErr String :=
  (fmtAux strict lk none s.data).map String.mk

/-- The `Language` dataclass of `py18n/language.py`: a display name, a locale
code and a flat translation table (a `FlatterDict` whose keys are the
delimiter-joined nested keys and whose values are strings), modelled as an
insertion-ordered association list.  The repository's
`discord/ext/i18n/i18n.py` imports an identical `Language` whose module is not
present under `src/`; per the spec's description of the language table and
formatter it is modelled by these same definitions. -/
structure Lang where
  name : String
  code : String
  translations : List (String × String)
  deriving DecidableEq, Repr

/-- The substitution mapping `\x7b**self.translations, **formatted_args\x7d`
built by `Language.get_text` (and rebuilt identically by py18n's
`I18n.get_text`): a caller-supplied keyword value overrides the entry of the
language's translation table with the same name, and the table is consulted
only when `use_translations` is true.  `kwargs` holds the caller-supplied
keyword arguments (the library's `list_formatter` is `None` here, so the
values are passed through unchanged). -/
def langMapping (lang : Lang) (kwargs : List (String × String))
    (useTranslations : Bool) : String → Option String :=
  fun n =>
    match dget kwargs n with
    | some v => some v
    | none => if useTranslations then dget lang.translations n else none

/-- `Language._get_translation_from_key` from `py18n/language.py`:
`result = self.translations.get(key, "")`, and when `raise_on_empty` is set
and the result is the empty string, `TranslationKeyEmptyError` is raised. -/
def getTranslationFromKey (lang : Lang) (key : String) (raiseOnEmpty : Bool) :
    Except PyErr String :=
  let result := (dget lang.translations key).getD ""
  if raiseOnEmpty = true ∧ result = "" then
    .error (.translationKeyEmpty key lang.code)
  else .ok result

/-- `Language.get_text` from `py18n/language.py`: fetch the template with
`_get_translation_from_key`, then format it once with
`base_string.format_map(SafeDict(**mapping))` where the mapping is
`langMapping`.  Since the translation table maps strings to strings, the
`isinstance(base_string, str)` guard of the source is always true. -/
def langGetText (lang : Lang) (key : String) (useTranslations : Bool)
    (raiseOnEmpty : Bool) (kwargs : List (String × String)) :
    Except PyErr String :=
  match getTranslationFromKey lang key raiseOnEmpty with
  | .error e => .error e
  | .ok base => pyFormat false (langMapping lang kwargs useTranslations) base

/-- An `I18n` instance: the `_languages` dict built by the constructor from
the language list (`\x7blanguage.code: language for language in languages\x7d`)
and the `_fallback` locale code. -/
structure I18nInst where
  languages : List (String × Lang)
  fallback : String
  deriving DecidableEq, Repr

/-- Whether an exception is caught by the `except KeyError` clauses of
`I18n.get_text`.  Every library exception subclasses `KeyError`; Python's
`ValueError` (from malformed format markup) and `IndexError` are not caught. -/
def isCatchable : PyErr → Bool
  | .valueError => false
  | .indexError => false
  | .attributeError _ => false
  | .typeError => false
  | _ => true

/-- The fallback retry block of `I18n.get_text`, the
`try: return self._languages[self._fallback].get_text(...) except KeyError:
pass` part.  `none` means the retry was attempted but its `KeyError` was
swallowed (or, for the caller, that the block was skipped), so control falls
through to the final raise-or-return-empty step. -/
def fbAttempt (inst : I18nInst) (key : String)
    (useTranslations raiseOnEmpty : Bool) (kwargs : List (String × String)) :
    Option (Except PyErr String) :=
  match dget inst.languages inst.fallback with
  | none => some (.error (.keyError inst.fallback))
  | some fl =>
    match langGetText fl key useTranslations raiseOnEmpty kwargs with
    | .ok s => some (.ok s)
    | .error e2 => if isCatchable e2 then none else some (.error e2)

/-- The body shared by both `I18n.get_text` implementations once a language
has been selected: inspect the first attempt, catch `KeyError`s, optionally
retry against the fallback language, and finally raise
`InvalidTranslationKeyError` or return the empty string.  `attempt` is the
result of the first lookup (py18n's includes its second formatting pass,
discord.ext.i18n's does not); `locale` is the locale after the possible
reassignment to the fallback. -/
def getTextTail (inst : I18nInst) (key locale : String)
    (useTranslations shouldFallback raiseOnEmpty : Bool)
    (kwargs : List (String × String)) (attempt : Except PyErr String) :
    Except PyErr String :=
  match attempt with
  | .ok s => .ok s
  | .error e =>
    if isCatchable e = false then .error e
    else
      match (if shouldFallback = true ∧ locale ≠ inst.fallback then
          fbAttempt inst key useTranslations raiseOnEmpty kwargs
        else none) with
      | some r => r
      | none =>
        if raiseOnEmpty then .error (.invalidTranslationKey key locale inst.fallback)
        else .ok ""

/-- The first lookup attempt of py18n's `I18n.get_text`: call
`language.get_text` and, when it returns a string, format it a second time
with `base_string.format(**mapping)` using the same mapping (strict lookup:
a leftover placeholder raises `KeyError`). -/
def pyAttempt (lang : Lang) (key : String) (useTranslations raiseOnEmpty : Bool)
    (kwargs : List (String × String)) : Except PyErr String :=
  match langGetText lang key useTranslations raiseOnEmpty kwargs with
  | .error e => .error e
  | .ok base => pyFormat true (langMapping lang kwargs useTranslations) base

/-- `I18n.get_text` from `py18n/i18n.py`: select the language (reassigning a
missing locale to the fallback when `should_fallback` allows), run the first
attempt with its second formatting pass, and finish with `getTextTail`. -/
def pyGetText (inst : I18nInst) (key locale : String)
    (useTranslations shouldFallback raiseOnEmpty : Bool)
    (kwargs : List (String × String)) : Except PyErr String :=
  match dget inst.languages locale with
  | some lang =>
    getTextTail inst key locale useTranslations shouldFallback raiseOnEmpty kwargs
      (pyAttempt lang key useTranslations raiseOnEmpty kwargs)
  | none =>
    if shouldFallback = false then .error (.invalidLocale locale)
    else
      match dget inst.languages inst.fallback with
      | none => .error (.keyError inst.fallback)
      | some lang =>
        getTextTail inst key inst.fallback useTranslations shouldFallback raiseOnEmpty
          kwargs (pyAttempt lang key useTranslations raiseOnEmpty kwargs)

/-- `I18n.get_text` from `discord/ext/i18n/i18n.py`.  The first line is
`locale = locale or self._fallback`, so a falsy locale (here the empty
string, standing for both `None` and `""`) is replaced by the fallback before
the language lookup; the resolved string of `language.get_text` is returned
directly, with no second formatting pass. -/
def dxGetText (inst : I18nInst) (key locale : String)
    (useTranslations shouldFallback raiseOnEmpty : Bool)
    (kwargs : List (String × String)) : Except PyErr String :=
  match dget inst.languages (if locale = "" then inst.fallback else locale) with
  | some lang =>
    getTextTail inst key (if locale = "" then inst.fallback else locale)
      useTranslations shouldFallback raiseOnEmpty kwargs
      (langGetText lang key useTranslations raiseOnEmpty kwargs)
  | none =>
    if shouldFallback = false then
      .error (.invalidLocale (if locale = "" then inst.fallback else locale))
    else
      match dget inst.languages inst.fallback with
      | none => .error (.keyError inst.fallback)
      | some lang =>
        getTextTail inst key inst.fallback useTranslations shouldFallback raiseOnEmpty
          kwargs (langGetText lang key useTranslations raiseOnEmpty kwargs)

/-- The `fallback` argument accepted by py18n's `I18n.__init__`: either a
locale code (a `str` or a `discord.Locale`, which the constructor converts
with `str`) or an index into the language list. -/
inductive PyFallback where
  | str (code : String)
  | int (index : Nat)
  deriving DecidableEq, Repr

/-- `I18n.__init__` from `py18n/i18n.py`: build the `_languages` dict, turn
the `fallback` argument into a locale code (`languages[fallback].code` for an
index, raising `IndexError` when out of range), and raise
`InvalidLocaleError` when that code is not a key of the dict. -/
def pyInit (languages : List Lang) (fallback : PyFallback) :
    Except PyErr I18nInst :=
  let langMap := languages.map (fun l => (l.code, l))
  let fb : Except PyErr String :=
    match fallback with
    | .str s => .ok s
    | .int n =>
      match languages[n]? with
      | some l => .ok l.code
      | none => .error .indexError
  match fb with
  | .error e => .error e
  | .ok code =>
    if dget langMap code = none then .error (.invalidLocale code)
    else .ok ⟨langMap, code⟩

/-- `I18n.__init__` from `discord/ext/i18n/i18n.py`: build the `_languages`
dict and raise `InvalidFallbackError` unless the fallback is a string or
`Locale` that is a key of the dict. -/
def dxInit (languages : List Lang) (fallback : String) :
    Except PyErr I18nInst :=
  let langMap := languages.map (fun l => (l.code, l))
  if dget langMap fallback = none then .error (.invalidFallback fallback)
  else .ok ⟨langMap, fallback⟩

mutual
/-- A Python value as fed to `flatten_dict`: a leaf (any scalar: string,
number, boolean, null — the library never inspects leaves, so they are
modelled by their string rendering), a dict with insertion-ordered entries,
or a list. -/
inductive PyVal where
  | leaf (s : String)
  | dict (es : PyEntries)
  | list (es : PyElems)

/-- The entries of a Python dict, in insertion order. -/
inductive PyEntries where
  | nil
  | cons (k : String) (v : PyVal) (rest : PyEntries)

/-- The elements of a Python list. -/
inductive PyElems where
  | nil
  | cons (v : PyVal) (rest : PyElems)
end

deriving instance DecidableEq for PyVal, PyEntries, PyElems

/-- The joined child key of both flattening implementations:
`f"\x7bkey_prefix\x7d\x7bsep\x7d\x7bk\x7d" if key_prefix else f"\x7bk\x7d"`. -/
def childKey (sep pfx k : String) : String :=
  if pfx = "" then k else pfx ++ sep ++ k

mutual
/-- The dict branch of `_flatten` from `discord/ext/i18n/extension.py`,
emitting the flat `(key, value)` pairs in traversal order (the dict built by
the source is recovered with `dget`, later pairs overriding earlier ones). -/
def dxFlattenEntries (sep pfx : String) : PyEntries → List (String × PyVal)
  | .nil => []
  | .cons k v rest => dxFlattenPair sep pfx k v ++ dxFlattenEntries sep pfx rest

/-- The list branch of `_flatten` from `discord/ext/i18n/extension.py`:
elements are enumerated and their indices used as keys. -/
def dxFlattenElems (sep pfx : String) (i : Nat) : PyElems → List (String × PyVal)
  | .nil => []
  | .cons v rest =>
    dxFlattenPair sep pfx (toString i) v ++ dxFlattenElems sep pfx (i + 1) rest

/-- One `(k, v)` step of discord.ext.i18n's `_flatten`: a dict or list value
is recursed into with the joined key as the new prefix, any other value is
emitted at the joined key. -/
def dxFlattenPair (sep pfx k : String) : PyVal → List (String × PyVal)
  | .leaf s => [(childKey sep pfx k, .leaf s)]
  | .dict es => dxFlattenEntries sep (childKey sep pfx k) es
  | .list es => dxFlattenElems sep (childKey sep pfx k) 0 es
end

/-- `flatten_dict` from `discord/ext/i18n/extension.py` on a dict input,
as the flat pair list whose dict reading (`dget`) is the returned map. -/
def dxFlattenDict (sep : String) (es : PyEntries) : List (String × PyVal) :=
  dxFlattenEntries sep "" es

mutual
/-- `_flatten` from `py18n/extension.py` (which only accepts dicts): a dict
value is recursed into; a list value has its elements enumerated by
`pyFlattenItems`; any other value is emitted at the joined key. -/
def pyFlattenEntries (sep pfx : String) : PyEntries → List (String × PyVal)
  | .nil => []
  | .cons k v rest =>
    (match v with
     | .dict es => pyFlattenEntries sep (childKey sep pfx k) es
     | .list es => pyFlattenItems sep (childKey sep pfx k) 0 es
     | .leaf s => [(childKey sep pfx k, .leaf s)]) ++ pyFlattenEntries sep pfx rest

/-- The list loop of py18n's `_flatten`: `sub_key = f"\x7bnew_key\x7d\x7bsep\x7d\x7bi\x7d"`
always joins with the separator, a dict element is recursed into, and any
other element — including a nested list — is stored as the value itself. -/
def pyFlattenItems (sep newKey : String) (i : Nat) : PyElems → List (String × PyVal)
  | .nil => []
  | .cons v rest =>
    (match v with
     | .dict es => pyFlattenEntries sep (newKey ++ sep ++ toString i) es
     | other => [(newKey ++ sep ++ toString i, other)]) ++
    pyFlattenItems sep newKey (i + 1) rest
end

/-- `flatten_dict` from `py18n/extension.py` on a dict input. -/
def pyFlattenDict (sep : String) (es : PyEntries) : List (String × PyVal) :=
  pyFlattenEntries sep "" es

/-- Delimiter-joined key path, as described by the spec's flattening
sentence. -/
def joinPath (sep : String) : List String → String
  | [] => ""
  | [k] => k
  | k :: rest => k ++ sep ++ joinPath sep rest

mutual
/-- The leaves of a Python value together with the key paths leading to them
(map keys and stringified sequence indices), the specification-side notion
against which flattening is checked. -/
def valLeaves : PyVal → List (List String × PyVal)
  | .leaf s => [([], .leaf s)]
  | .dict es => entriesLeaves es
  | .list es => elemsLeaves 0 es

/-- Leaves of a dict: each entry's leaves with the entry key prepended. -/
def entriesLeaves : PyEntries → List (List String × PyVal)
  | .nil => []
  | .cons k v rest =>
    (valLeaves v).map (fun pl => (k :: pl.1, pl.2)) ++ entriesLeaves rest

/-- Leaves of a list: each element's leaves with the element index
prepended. -/
def elemsLeaves (i : Nat) : PyElems → List (List String × PyVal)
  | .nil => []
  | .cons v rest =>
    (valLeaves v).map (fun pl => (toString i :: pl.1, pl.2)) ++ elemsLeaves (i + 1) rest
end

mutual
/-- Dict keys throughout the value are nonempty strings. -/
def neKeysVal : PyVal → Bool
  | .leaf _ => true
  | .dict es => neKeysEntries es
  | .list es => neKeysElems es

def neKeysEntries : PyEntries → Bool
  | .nil => true
  | .cons k v rest => (k != "") && neKeysVal v && neKeysEntries rest

def neKeysElems : PyElems → Bool
  | .nil => true
  | .cons v rest => neKeysVal v && neKeysElems rest
end

/-- Whether a value is a Python list. -/
def isListVal : PyVal → Bool
  | .list _ => true
  | _ => false

mutual
/-- Dict keys are nonempty and no list element is itself a list: the fragment
on which the two flattening implementations agree. -/
def tameVal : PyVal → Bool
  | .leaf _ => true
  | .dict es => tameEntries es
  | .list es => tameElems es

def tameEntries : PyEntries → Bool
  | .nil => true
  | .cons k v rest => (k != "") && tameVal v && tameEntries rest

def tameElems : PyElems → Bool
  | .nil => true
  | .cons v rest => !isListVal v && tameVal v && tameElems rest
end

/-- Characters that the format scanner treats as plain literal text. -/
abbrev plainChars (a : List Char) : Prop := ∀ c ∈ a, c ≠ '{' ∧ c ≠ '}'

/-- Characters that may form a simple replacement-field name: one CPython
`arg_name` with no attribute or index accessors and no conversion or format
spec, so the whole field is looked up as one mapping key. -/
abbrev nameChars (n : List Char) : Prop :=
  ∀ c ∈ n, c ≠ '{' ∧ c ≠ '}' ∧ c ≠ ':' ∧ c ≠ '!' ∧ c ≠ '.' ∧ c ≠ '['

theorem except_map_map {α β γ : Type} (x : Except PyErr α) (f : α → β) (g : β → γ) :
    (x.map f).map g = x.map (fun v => g (f v)) := by
  cases x <;> rfl

theorem fmtAux_cons_plain (strict : Bool) (lk : String → Option String)
    (c : Char) (cs : List Char) (hc1 : c ≠ '{') (hc2 : c ≠ '}') :
    fmtAux strict lk none (c :: cs) =
      (fmtAux strict lk none cs).map (fun s => c :: s) := by
  rw [fmtAux.eq_def]
  simp only [hc1, hc2, if_false, ite_false]

theorem fmtAux_append_plain (strict : Bool) (lk : String → Option String)
    (a cs : List Char) (ha : plainChars a) :
    fmtAux strict lk none (a ++ cs) =
      (fmtAux strict lk none cs).map (fun s => a ++ s) := by
  induction a with
  | nil =>
    cases h : fmtAux strict lk none cs <;> simp [Except.map, h]
  | cons c a ih =>
    have hc := ha c (List.mem_cons_self c a)
    have ha' : plainChars a := fun x hx => ha x (List.mem_cons_of_mem c hx)
    rw [List.cons_append, fmtAux_cons_plain strict lk c (a ++ cs) hc.1 hc.2,
      ih ha', except_map_map]
    rfl

theorem fmtAux_plain (strict : Bool) (lk : String → Option String)
    (a : List Char) (ha : plainChars a) :
    fmtAux strict lk none a = .ok a := by
  have h := fmtAux_append_plain strict lk a [] ha
  rw [List.append_nil] at h
  rw [h, show fmtAux strict lk none [] = Except.ok [] from rfl]
  simp [Except.map]

/-- Collecting a field made of simple name characters: scanning
`n ++ '\x7d' :: cs` in field state with accumulator `acc` resolves the field
`acc.reverse ++ n` through `parseField` and continues with `cs`. -/
theorem fmtAux_field (strict : Bool) (lk : String → Option String)
    (n : List Char) (hn : nameChars n) (acc cs : List Char) :
    fmtAux strict lk (some (acc, false)) (n ++ '}' :: cs) =
      match parseField strict lk (acc.reverse ++ n) with
      | .ok v => (fmtAux strict lk none cs).map (fun s => v.data ++ s)
      | .error e => .error e := by
  induction n generalizing acc with
  | nil =>
    rw [List.nil_append, fmtAux, if_pos rfl]
    simp
  | cons c n ih =>
    have hc := hn c (List.mem_cons_self c n)
    have hn' : nameChars n := fun x hx => hn x (List.mem_cons_of_mem c hx)
    have hb : (if c = '[' then true else if c = ']' then false else false) = false := by
      rw [if_neg hc.2.2.2.2.2, ite_self]
    rw [List.cons_append, fmtAux, if_neg hc.2.1, if_neg hc.1,
      if_neg (by simp [hc.2.2.1, hc.2.2.2.1]), hb, ih hn' (c :: acc)]
    simp [List.append_assoc]

/-- Opening a field: scanning `'\x7b' :: rest` where `rest` does not start
with a second `'\x7b'` enters field state. -/
theorem fmtAux_open (strict : Bool) (lk : String → Option String)
    (c2 : Char) (cs2 : List Char) (hc2 : c2 ≠ '{') :
    fmtAux strict lk none ('{' :: c2 :: cs2) =
      fmtAux strict lk (some ([], false)) (c2 :: cs2) := by
  rw [fmtAux, if_pos rfl]
  simp [if_neg hc2]

theorem takeWhile_eq_self_of_all {α : Type} {p : α → Bool} :
    ∀ (l : List α), (∀ c ∈ l, p c = true) → l.takeWhile p = l ∧ l.dropWhile p = []
  | [], _ => ⟨rfl, rfl⟩
  | c :: l, h => by
    have hc := h c (List.mem_cons_self c l)
    have hl := takeWhile_eq_self_of_all l (fun x hx => h x (List.mem_cons_of_mem c hx))
    simp [List.takeWhile_cons, List.dropWhile_cons, hc, hl.1, hl.2]

/-- On a simple non-positional name the whole field is one mapping key: the
field resolves exactly as a plain lookup, with `SafeDict` reproducing the
braced name when it is absent. -/
theorem parseField_simple (strict : Bool) (lk : String → Option String)
    (n : List Char) (hn : nameChars n) (hd : n.all Char.isDigit = false) :
    parseField strict lk n =
      match lk (String.mk n) with
      | some v => .ok v
      | none =>
        if strict then .error (.keyError (String.mk n))
        else .ok ("\x7b" ++ String.mk n ++ "\x7d") := by
  have hall : ∀ c ∈ n, ((fun c => c != '.' && c != '[') c) = true := by
    intro c hc
    have h := hn c hc
    simp [h.2.2.2.2.1, h.2.2.2.2.2]
  obtain ⟨ht, hdrop⟩ := takeWhile_eq_self_of_all n hall
  cases hlk : lk (String.mk n) with
  | none =>
    cases strict <;> simp [parseField, ht, hdrop, hd, hlk, applyAccessors]
  | some v =>
    simp [parseField, ht, hdrop, hd, hlk, applyAccessors]

/-- Scanning a template of the form `a ++ "\x7b" ++ n ++ "\x7d" ++ cs` with
plain `a` and a simple non-positional name `n`: the name is resolved against
the lookup and scanning continues after the closing brace. -/
theorem fmtAux_template (strict : Bool) (lk : String → Option String)
    (a n cs : List Char) (ha : plainChars a) (hn : nameChars n)
    (hd : n.all Char.isDigit = false) :
    fmtAux strict lk none (a ++ '{' :: (n ++ '}' :: cs)) =
      (match lk (String.mk n) with
      | some v => (fmtAux strict lk none cs).map (fun s => v.data ++ s)
      | none =>
        if strict then .error (.keyError (String.mk n))
        else (fmtAux strict lk none cs).map
          (fun s => '{' :: (n ++ '}' :: s))).map (fun s => a ++ s) := by
  have hne : n ≠ [] := by
    intro h
    rw [h] at hd
    simp at hd
  rw [fmtAux_append_plain strict lk a _ ha]
  cases n with
  | nil => exact absurd rfl hne
  | cons c n' =>
    have hc := hn c (List.mem_cons_self c n')
    have h2 := fmtAux_field strict lk (c :: n') hn [] cs
    simp only [List.reverse_nil, List.nil_append] at h2
    rw [List.cons_append, fmtAux_open strict lk c (n' ++ '}' :: cs) hc.1,
      show (c :: (n' ++ '}' :: cs) : List Char) = (c :: n') ++ '}' :: cs from rfl, h2,
      parseField_simple strict lk (c :: n') hn hd]
    cases hlk : lk (String.mk (c :: n')) with
    | some v => simp
    | none =>
      cases strict with
      | true => simp
      | false =>
        have hdata : ("\x7b" ++ String.mk (c :: n') ++ "\x7d").data =
            '{' :: ((c :: n') ++ ['}']) := by
          simp [String.data_append]
        simp [hdata, List.append_assoc]

theorem dget_of_forall_ne {α : Type} (l : List (String × α)) (k : String)
    (h : ∀ p ∈ l, p.1 ≠ k) : dget l k = none := by
  induction l with
  | nil => rfl
  | cons p rest ih =>
    have hp := h p (List.mem_cons_self p rest)
    have hrest := ih (fun q hq => h q (List.mem_cons_of_mem p hq))
    simp [dget, hrest, hp]

theorem dget_nodup {α : Type} (l : List (String × α)) (k : String) (v : α)
    (hnd : (l.map Prod.fst).Nodup) (hmem : (k, v) ∈ l) : dget l k = some v := by
  induction l with
  | nil => exact absurd hmem (List.not_mem_nil _)
  | cons p rest ih =>
    obtain ⟨pk, pv⟩ := p
    rw [List.map_cons, List.nodup_cons] at hnd
    rcases List.mem_cons.mp hmem with heq | hmem'
    · injection heq with h1 h2
      subst h1; subst h2
      have hnone : dget rest k = none := by
        refine dget_of_forall_ne rest k (fun q hq hqk => ?_)
        have hq1 : q.1 ∈ List.map Prod.fst rest := List.mem_map_of_mem Prod.fst hq
        rw [hqk] at hq1
        exact hnd.1 hq1
      simp [dget, hnone]
    · simp [dget, ih hnd.2 hmem']

theorem data_of_template (a n b : String) :
    (a ++ "\x7b" ++ n ++ "\x7d" ++ b).data = a.data ++ '{' :: (n.data ++ '}' :: b.data) := by
  simp [String.data_append, List.append_assoc]

theorem template_ne_empty (a n b : String) : a ++ "\x7b" ++ n ++ "\x7d" ++ b ≠ "" := by
  intro h
  have hd := congrArg String.data h
  rw [data_of_template] at hd
  simp at hd

/-- C10 amended: for a placeholder whose field name is simple — no `.` or
`[` accessor and not positional (digit-only or empty) — an unmatched
placeholder is kept verbatim by `Language.get_text` thanks to `SafeDict`.
For a dotted field the program raises `AttributeError` instead: `SafeDict`
returns the braced first segment, a string, and the attribute access on it
fails (see the counterexample). -/
theorem langGetText_keeps_unmatched_placeholder (lang : Lang) (key : String)
    (kwargs : List (String × String)) (useT raiseOE : Bool) (a n b : String)
    (htmpl : dget lang.translations key = some (a ++ "\x7b" ++ n ++ "\x7d" ++ b))
    (hpa : plainChars a.data) (hpb : plainChars b.data)
    (hname : nameChars n.data) (hdig : n.data.all Char.isDigit = false)
    (hkw : dget kwargs n = none)
    (htr : useT = true → dget lang.translations n = none) :
    langGetText lang key useT raiseOE kwargs = .ok (a ++ "\x7b" ++ n ++ "\x7d" ++ b) := by
  have hmap : langMapping lang kwargs useT n = none := by
    unfold langMapping
    rw [hkw]
    cases useT with
    | true => simp [htr rfl]
    | false => simp
  have htm : getTranslationFromKey lang key raiseOE = .ok (a ++ "\x7b" ++ n ++ "\x7d" ++ b) := by
    unfold getTranslationFromKey
    rw [htmpl]
    simp only [Option.getD_some]
    rw [if_neg]
    intro hcon
    exact template_ne_empty a n b hcon.2
  unfold langGetText
  rw [htm]
  show Except.map String.mk
      (fmtAux false (langMapping lang kwargs useT) none (a ++ "\x7b" ++ n ++ "\x7d" ++ b).data) = _
  rw [data_of_template,
    fmtAux_template false (langMapping lang kwargs useT) a.data n.data b.data hpa hname hdig,
    show String.mk n.data = n from rfl, hmap]
  rw [fmtAux_plain false (langMapping lang kwargs useT) b.data hpb]
  simp only [Bool.false_eq_true, if_false, Except.map]
  rw [← data_of_template]

/-- Witness for the amended C10 at a concrete language: the template
"Hi {who}!" with no binding for `who` is returned verbatim. -/
theorem langGetText_keeps_unmatched_placeholder_witness :
    dget [("greet", "Hi " ++ "\x7b" ++ "who" ++ "\x7d" ++ "!")] "greet" =
      some ("Hi " ++ "\x7b" ++ "who" ++ "\x7d" ++ "!") ∧
    langGetText ⟨"English", "en", [("greet", "Hi " ++ "\x7b" ++ "who" ++ "\x7d" ++ "!")]⟩
      "greet" true true [] = .ok ("Hi " ++ "\x7b" ++ "who" ++ "\x7d" ++ "!") :=
  ⟨by decide,
    langGetText_keeps_unmatched_placeholder
      ⟨"English", "en", [("greet", "Hi " ++ "\x7b" ++ "who" ++ "\x7d" ++ "!")]⟩
      "greet" [] true true "Hi " "who" "!"
      (by decide) (by decide) (by decide) (by decide) (by decide) rfl
      (fun _ => by decide)⟩

/-- C10 as stated is false on a dotted field name: with the template
"Hi {a.b}!" and nothing bound, CPython resolves the first segment `a` —
`SafeDict.__missing__` returns the string `"\x7ba\x7d"` — and the attribute
access `.b` on that string raises `AttributeError`, so `Language.get_text`
raises a formatting error instead of keeping the placeholder verbatim. -/
theorem langGetText_dotted_placeholder_raises :
    dget [("greet", "Hi " ++ "\x7b" ++ "a.b" ++ "\x7d" ++ "!")] "a.b" = none ∧
    langGetText ⟨"English", "en", [("greet", "Hi " ++ "\x7b" ++ "a.b" ++ "\x7d" ++ "!")]⟩
      "greet" true true [] = .error (.attributeError "b") ∧
    (Except.error (PyErr.attributeError "b") : Except PyErr String) ≠
      .ok ("Hi " ++ "\x7b" ++ "a.b" ++ "\x7d" ++ "!") :=
  ⟨rfl, rfl, by decide⟩

/-- C9: in `Language._get_translation_from_key`, a key bound to the empty
string and an absent key behave identically: `TranslationKeyEmptyError` when
`raise_on_empty` is set, the empty string otherwise. -/
theorem getTranslationFromKey_empty_eq_absent (lang : Lang) (key : String)
    (h : dget lang.translations key = none ∨ dget lang.translations key = some "") :
    getTranslationFromKey lang key true = .error (.translationKeyEmpty key lang.code) ∧
    getTranslationFromKey lang key false = .ok "" := by
  have hres : (dget lang.translations key).getD "" = "" := by
    cases h with
    | inl h => rw [h]; rfl
    | inr h => rw [h]; rfl
  constructor <;> simp [getTranslationFromKey, hres]

/-- Witness for C9 at a concrete language holding an empty translation. -/
theorem getTranslationFromKey_empty_eq_absent_witness :
    dget [("a", "x"), ("e", "")] "e" = some "" ∧
    (getTranslationFromKey ⟨"English", "en", [("a", "x"), ("e", "")]⟩ "e" true =
        .error (.translationKeyEmpty "e" "en") ∧
      getTranslationFromKey ⟨"English", "en", [("a", "x"), ("e", "")]⟩ "e" false = .ok "") :=
  ⟨by decide,
    getTranslationFromKey_empty_eq_absent ⟨"English", "en", [("a", "x"), ("e", "")]⟩ "e"
      (Or.inr (by decide))⟩

theorem langGetText_subst (lang : Lang) (key : String)
    (kwargs : List (String × String)) (useT raiseOE : Bool) (a n b v : String)
    (htmpl : dget lang.translations key = some (a ++ "\x7b" ++ n ++ "\x7d" ++ b))
    (hpa : plainChars a.data) (hpb : plainChars b.data)
    (hname : nameChars n.data) (hdig : n.data.all Char.isDigit = false)
    (hM : langMapping lang kwargs useT n = some v) :
    langGetText lang key useT raiseOE kwargs = .ok (a ++ v ++ b) := by
  have htm : getTranslationFromKey lang key raiseOE = .ok (a ++ "\x7b" ++ n ++ "\x7d" ++ b) := by
    unfold getTranslationFromKey
    rw [htmpl]
    simp only [Option.getD_some]
    rw [if_neg]
    intro hcon
    exact template_ne_empty a n b hcon.2
  unfold langGetText
  rw [htm]
  show Except.map String.mk
      (fmtAux false (langMapping lang kwargs useT) none (a ++ "\x7b" ++ n ++ "\x7d" ++ b).data) = _
  rw [data_of_template,
    fmtAux_template false (langMapping lang kwargs useT) a.data n.data b.data hpa hname hdig,
    show String.mk n.data = n from rfl, hM,
    fmtAux_plain false (langMapping lang kwargs useT) b.data hpb]
  simp only [Except.map]
  have hdata : (a ++ v ++ b).data = a.data ++ (v.data ++ b.data) := by
    simp [String.data_append]
  rw [← hdata]

/-- C3 amended: with `use_translations=True`, a placeholder whose field name
is simple — no `.` or `[` accessor and not positional (digit-only or
empty) — is substituted from the union of the caller-supplied keyword values
and the language's own translation table, the keyword value winning when
both bind the name.  A placeholder naming another translation key of the
same language is replaced by that key's translation only for such simple
names: for a dotted key — the shape this library's own flattening produces
for every nested entry — the program raises `AttributeError` instead (see
the counterexample). -/
theorem langGetText_union_with_precedence (lang : Lang) (key : String)
    (kwargs : List (String × String)) (raiseOE : Bool) (a n b : String)
    (htmpl : dget lang.translations key = some (a ++ "\x7b" ++ n ++ "\x7d" ++ b))
    (hpa : plainChars a.data) (hpb : plainChars b.data)
    (hname : nameChars n.data) (hdig : n.data.all Char.isDigit = false) :
    (∀ v, dget kwargs n = some v →
      langGetText lang key true raiseOE kwargs = .ok (a ++ v ++ b)) ∧
    (dget kwargs n = none → ∀ w, dget lang.translations n = some w →
      langGetText lang key true raiseOE kwargs = .ok (a ++ w ++ b)) := by
  constructor
  · intro v hv
    refine langGetText_subst lang key kwargs true raiseOE a n b v htmpl hpa hpb hname hdig ?_
    unfold langMapping
    rw [hv]
  · intro hnone w hw
    refine langGetText_subst lang key kwargs true raiseOE a n b w htmpl hpa hpb hname hdig ?_
    unfold langMapping
    rw [hnone]
    simp [hw]

/-- C3 as stated is false for dotted translation keys, the very keys the
library's flattening produces for nested entries: with the table
`\x7b"msg": "\x7ba.b\x7d", "a.b": "w"\x7d`, the placeholder names the
translation key `a.b`, yet CPython splits the field at the dot, `SafeDict`
resolves the missing first segment `a` to the string `"\x7ba\x7d"`, and the
attribute access `.b` raises `AttributeError` — the placeholder is not
replaced by that key's translation `"w"`. -/
theorem langGetText_dotted_key_not_substituted :
    dget [("msg", "\x7b" ++ "a.b" ++ "\x7d"), ("a.b", "w")] "a.b" = some "w" ∧
    langGetText ⟨"English", "en", [("msg", "\x7b" ++ "a.b" ++ "\x7d"), ("a.b", "w")]⟩
      "msg" true true [] = .error (.attributeError "b") ∧
    (Except.error (PyErr.attributeError "b") : Except PyErr String) ≠ .ok "w" :=
  ⟨rfl, rfl, by decide⟩

/-- Witness for the amended C3, mirroring the docstring example of
`Language.get_text`: the placeholder `game` resolves from the translation
table when no keyword is supplied, and a caller-supplied `game` wins over
the table entry. -/
theorem langGetText_union_with_precedence_witness :
    dget [("you_lost", "You lost the " ++ "\x7b" ++ "game" ++ "\x7d" ++ ""), ("game", "game")]
      "you_lost" = some ("You lost the " ++ "\x7b" ++ "game" ++ "\x7d" ++ "") ∧
    langGetText
      ⟨"English", "en",
        [("you_lost", "You lost the " ++ "\x7b" ++ "game" ++ "\x7d" ++ ""), ("game", "game")]⟩
      "you_lost" true true [] = .ok ("You lost the " ++ "game" ++ "") ∧
    langGetText
      ⟨"English", "en",
        [("you_lost", "You lost the " ++ "\x7b" ++ "game" ++ "\x7d" ++ ""), ("game", "game")]⟩
      "you_lost" true true [("game", "match")] = .ok ("You lost the " ++ "match" ++ "") :=
  ⟨by decide,
    (langGetText_union_with_precedence
      ⟨"English", "en",
        [("you_lost", "You lost the " ++ "\x7b" ++ "game" ++ "\x7d" ++ ""), ("game", "game")]⟩
      "you_lost" [] true "You lost the " "game" ""
      (by decide) (by decide) (by decide) (by decide) (by decide)).2
      (by decide) "game" (by decide),
    (langGetText_union_with_precedence
      ⟨"English", "en",
        [("you_lost", "You lost the " ++ "\x7b" ++ "game" ++ "\x7d" ++ ""), ("game", "game")]⟩
      "you_lost" [("game", "match")] true "You lost the " "game" ""
      (by decide) (by decide) (by decide) (by decide) (by decide)).1
      "match" (by decide)⟩

/-- C4 is falsified by py18n's `I18n.get_text`, which formats the resolved
string a second time with `base_string.format(**mapping)`: with the template
`"\x7bx\x7d"`, the keyword `x = "\x7by\x7d"` and the keyword `y = "Z"`, the
brace placeholder `y` introduced by the substituted value of `x` is itself
substituted by the second pass, yielding `"Z"`.  The discord.ext.i18n
implementation of the very same repository performs a single pass and keeps
`"\x7by\x7d"` verbatim, as the spec describes. -/
theorem pyGetText_double_format_eval :
    pyGetText ⟨[("en", ⟨"English", "en", [("k", "{x}")]⟩)], "en"⟩ "k" "en"
      true true true [("x", "{y}"), ("y", "Z")] = .ok "Z" ∧
    dxGetText ⟨[("en", ⟨"English", "en", [("k", "{x}")]⟩)], "en"⟩ "k" "en"
      true true true [("x", "{y}"), ("y", "Z")] = .ok ("\x7b" ++ "y" ++ "\x7d") := by
  constructor <;> rfl

/-- C5 is falsified by the same second formatting pass of py18n's
`I18n.get_text`: for a language whose entry for `k` is `"\x7bx\x7d"` (present
and nonempty), the second pass raises `KeyError` for `x`, the `except
KeyError` swallows it, and `InvalidTranslationKeyError` is raised even though
the key resolves in the selected locale's table.  discord.ext.i18n returns
the resolved string. -/
theorem pyGetText_spurious_invalid_key_eval :
    pyGetText ⟨[("en", ⟨"English", "en", [("k", "{x}")]⟩)], "en"⟩ "k" "en"
      true true true [] = .error (.invalidTranslationKey "k" "en" "en") ∧
    dxGetText ⟨[("en", ⟨"English", "en", [("k", "{x}")]⟩)], "en"⟩ "k" "en"
      true true true [] = .ok ("\x7b" ++ "x" ++ "\x7d") := by
  constructor <;> rfl

theorem isCatchable_false_shape (e : PyErr) (h : isCatchable e = false) :
    e = .valueError ∨ e = .indexError ∨ e = .typeError ∨ ∃ s, e = .attributeError s := by
  cases e <;> simp_all [isCatchable]

theorem getTextTail_ok (inst : I18nInst) (key locale : String)
    (u sf roe : Bool) (kwargs : List (String × String)) (s : String) :
    getTextTail inst key locale u sf roe kwargs (.ok s) = .ok s := rfl

theorem langGetText_keyFails (lang : Lang) (key : String) (u : Bool)
    (kwargs : List (String × String))
    (h : (dget lang.translations key).getD "" = "") :
    langGetText lang key u true kwargs = .error (.translationKeyEmpty key lang.code) := by
  simp [langGetText, getTranslationFromKey, h]

theorem getTextTail_fb (inst : I18nInst) (key locale : String) (u roe : Bool)
    (kwargs : List (String × String)) (e : PyErr) (fl : Lang) (s : String)
    (hc : isCatchable e = true) (hne : locale ≠ inst.fallback)
    (hfb : dget inst.languages inst.fallback = some fl)
    (hfl : langGetText fl key u roe kwargs = .ok s) :
    getTextTail inst key locale u true roe kwargs (.error e) = .ok s := by
  simp [getTextTail, fbAttempt, hc, hne, hfb, hfl]

theorem fbAttempt_ne_invalidLocale (inst : I18nInst) (key : String)
    (u roe : Bool) (kwargs : List (String × String))
    (r : Except PyErr String) (l' : String)
    (h : fbAttempt inst key u roe kwargs = some r) :
    r ≠ .error (.invalidLocale l') := by
  unfold fbAttempt at h
  split at h
  · injection h with h'
    subst h'
    simp
  · split at h
    · injection h with h'
      subst h'
      simp
    · split at h
      · exact absurd h (by simp)
      · injection h with h'
        subst h'
        intro hcon
        injection hcon with h2
        subst h2
        simp_all [isCatchable]

theorem getTextTail_ne_invalidLocale (inst : I18nInst) (key locale : String)
    (u sf roe : Bool) (kwargs : List (String × String))
    (attempt : Except PyErr String) (l' : String) :
    getTextTail inst key locale u sf roe kwargs attempt ≠ .error (.invalidLocale l') := by
  unfold getTextTail
  split
  · simp
  · next e =>
    split
    · next hc =>
      intro h
      injection h with h'
      subst h'
      simp [isCatchable] at hc
    · split
      · next r hr =>
        by_cases hcond : sf = true ∧ locale ≠ inst.fallback
        · rw [if_pos hcond] at hr
          exact fbAttempt_ne_invalidLocale inst key u roe kwargs r l' hr
        · rw [if_neg hcond] at hr
          exact absurd hr (by simp)
      · split <;> simp

/-- C1 amended: with `should_fallback=True` and `raise_on_empty=True`,
discord.ext.i18n's `I18n.get_text` resolves against the fallback language
whenever the requested locale is absent from the table (including the falsy
empty locale) or the key does not resolve in the requested locale's table,
and it returns exactly the fallback language's formatted string, so the
fallback is applied once. -/
theorem dxGetText_falls_back (inst : I18nInst) (key locale : String)
    (useT : Bool) (kwargs : List (String × String)) (fl : Lang) (s : String)
    (hfb : dget inst.languages inst.fallback = some fl)
    (hmiss : dget inst.languages locale = none ∨
      ∃ lang, dget inst.languages locale = some lang ∧
        (dget lang.translations key).getD "" = "")
    (hfl : langGetText fl key useT true kwargs = .ok s) :
    dxGetText inst key locale useT true true kwargs = .ok s := by
  unfold dxGetText
  by_cases hloc : locale = ""
  · rw [if_pos hloc, hfb]
    show getTextTail inst key inst.fallback useT true true kwargs
      (langGetText fl key useT true kwargs) = .ok s
    rw [hfl]
    exact getTextTail_ok inst key inst.fallback useT true true kwargs s
  · rw [if_neg hloc]
    rcases hmiss with hnone | ⟨lang, hlang, hkey⟩
    · rw [hnone, if_neg (by decide), hfb]
      show getTextTail inst key inst.fallback useT true true kwargs
        (langGetText fl key useT true kwargs) = .ok s
      rw [hfl]
      exact getTextTail_ok inst key inst.fallback useT true true kwargs s
    · rw [hlang]
      show getTextTail inst key locale useT true true kwargs
        (langGetText lang key useT true kwargs) = .ok s
      by_cases heq : locale = inst.fallback
      · exfalso
        rw [heq, hfb] at hlang
        injection hlang with h'
        subst h'
        rw [langGetText_keyFails fl key useT kwargs hkey] at hfl
        exact absurd hfl (by simp)
      · rw [langGetText_keyFails lang key useT kwargs hkey]
        exact getTextTail_fb inst key locale useT true kwargs _ fl s rfl heq hfb hfl

/-- Witness for the amended C1 at a concrete instance: the key missing from
the French table resolves to the English fallback's formatted string. -/
theorem dxGetText_falls_back_witness :
    dget [("en", (⟨"English", "en", [("k", "hello")]⟩ : Lang)),
        ("fr", ⟨"French", "fr", []⟩)] "en" = some ⟨"English", "en", [("k", "hello")]⟩ ∧
    langGetText ⟨"English", "en", [("k", "hello")]⟩ "k" true true [] = .ok "hello" ∧
    dxGetText ⟨[("en", ⟨"English", "en", [("k", "hello")]⟩),
        ("fr", ⟨"French", "fr", []⟩)], "en"⟩ "k" "fr" true true true [] = .ok "hello" :=
  ⟨by decide, by decide,
    dxGetText_falls_back
      ⟨[("en", ⟨"English", "en", [("k", "hello")]⟩), ("fr", ⟨"French", "fr", []⟩)], "en"⟩
      "k" "fr" true [] ⟨"English", "en", [("k", "hello")]⟩ "hello"
      (by decide)
      (Or.inr ⟨⟨"French", "fr", []⟩, by decide, by decide⟩)
      (by decide)⟩

/-- C1 as stated is false: with `raise_on_empty=False`, a key missing from a
present locale's table makes `get_text` return the empty string from the
requested locale without consulting the fallback, even though the key is
present in the fallback language. -/
theorem dxGetText_no_fallback_when_not_raising :
    dxGetText ⟨[("en", ⟨"English", "en", [("k", "hello")]⟩),
        ("fr", ⟨"French", "fr", []⟩)], "en"⟩ "k" "fr" true true false [] = .ok "" ∧
    langGetText ⟨"English", "en", [("k", "hello")]⟩ "k" true false [] = .ok "hello" ∧
    (Except.ok "" : Except PyErr String) ≠ .ok "hello" :=
  ⟨rfl, rfl, by decide⟩

/-- C6 amended: a nonempty requested locale that is not a key of the language
table makes `get_text` with `should_fallback=False` raise
`InvalidLocaleError`, and a nonempty present locale never leads to
`InvalidLocaleError`; for py18n the restriction to nonempty locales is not
needed.  discord.ext.i18n's `locale = locale or self._fallback` silently
replaces the falsy empty locale by the fallback before the lookup. -/
theorem getText_invalid_locale_iff_absent :
    (∀ (inst : I18nInst) (key locale : String) (useT roe : Bool)
        (kwargs : List (String × String)), locale ≠ "" →
      dget inst.languages locale = none →
      dxGetText inst key locale useT false roe kwargs = .error (.invalidLocale locale)) ∧
    (∀ (inst : I18nInst) (key locale : String) (useT sf roe : Bool)
        (kwargs : List (String × String)) (lang : Lang) (l' : String), locale ≠ "" →
      dget inst.languages locale = some lang →
      dxGetText inst key locale useT sf roe kwargs ≠ .error (.invalidLocale l')) ∧
    (∀ (inst : I18nInst) (key locale : String) (useT roe : Bool)
        (kwargs : List (String × String)),
      dget inst.languages locale = none →
      pyGetText inst key locale useT false roe kwargs = .error (.invalidLocale locale)) ∧
    (∀ (inst : I18nInst) (key locale : String) (useT sf roe : Bool)
        (kwargs : List (String × String)) (lang : Lang) (l' : String),
      dget inst.languages locale = some lang →
      pyGetText inst key locale useT sf roe kwargs ≠ .error (.invalidLocale l')) := by
  refine ⟨?_, ?_, ?_, ?_⟩
  · intro inst key locale useT roe kwargs hloc hnone
    unfold dxGetText
    rw [if_neg hloc, hnone, if_pos rfl]
  · intro inst key locale useT sf roe kwargs lang l' hloc hlang
    unfold dxGetText
    rw [if_neg hloc, hlang]
    show getTextTail inst key locale useT sf roe kwargs
      (langGetText lang key useT roe kwargs) ≠ .error (.invalidLocale l')
    exact getTextTail_ne_invalidLocale inst key locale useT sf roe kwargs _ l'
  · intro inst key locale useT roe kwargs hnone
    unfold pyGetText
    rw [hnone, if_pos rfl]
  · intro inst key locale useT sf roe kwargs lang l' hlang
    unfold pyGetText
    rw [hlang]
    show getTextTail inst key locale useT sf roe kwargs
      (pyAttempt lang key useT roe kwargs) ≠ .error (.invalidLocale l')
    exact getTextTail_ne_invalidLocale inst key locale useT sf roe kwargs _ l'

/-- Witness for the amended C6: an absent nonempty locale raises
`InvalidLocaleError` in both implementations when `should_fallback` is off,
and a present locale never does. -/
theorem getText_invalid_locale_iff_absent_witness :
    ("fr" ≠ "" ∧ dget [("en", (⟨"English", "en", [("k", "hello")]⟩ : Lang))] "fr" = none) ∧
    dxGetText ⟨[("en", ⟨"English", "en", [("k", "hello")]⟩)], "en"⟩ "k" "fr"
      true false true [] = .error (.invalidLocale "fr") ∧
    pyGetText ⟨[("en", ⟨"English", "en", [("k", "hello")]⟩)], "en"⟩ "k" "fr"
      true false true [] = .error (.invalidLocale "fr") ∧
    pyGetText ⟨[("en", ⟨"English", "en", [("k", "hello")]⟩)], "en"⟩ "k" "en"
      true true true [] ≠ .error (.invalidLocale "en") :=
  ⟨⟨by decide, by decide⟩,
    getText_invalid_locale_iff_absent.1
      ⟨[("en", ⟨"English", "en", [("k", "hello")]⟩)], "en"⟩ "k" "fr" true true []
      (by decide) (by decide),
    getText_invalid_locale_iff_absent.2.2.1
      ⟨[("en", ⟨"English", "en", [("k", "hello")]⟩)], "en"⟩ "k" "fr" true true []
      (by decide),
    getText_invalid_locale_iff_absent.2.2.2
      ⟨[("en", ⟨"English", "en", [("k", "hello")]⟩)], "en"⟩ "k" "en" true true true []
      ⟨"English", "en", [("k", "hello")]⟩ "en" (by decide)⟩

/-- C6 as stated is false for discord.ext.i18n: the empty string is a
requested locale that is not a key of the table, yet `get_text` with
`should_fallback=False` does not raise `InvalidLocaleError` — the
`locale = locale or self._fallback` line silently replaces the falsy locale
by the fallback and returns its translation. -/
theorem dxGetText_empty_locale_no_invalid_locale :
    dget [("en", (⟨"English", "en", [("k", "hello")]⟩ : Lang))] "" = none ∧
    dxGetText ⟨[("en", ⟨"English", "en", [("k", "hello")]⟩)], "en"⟩ "k" ""
      true false true [] = .ok "hello" ∧
    (Except.ok "hello" : Except PyErr String) ≠ .error (.invalidLocale "") :=
  ⟨by decide, rfl, by decide⟩

/-- C8: both constructors accept the fallback exactly when its code is among
the given languages' codes — py18n raising `InvalidLocaleError` and
discord.ext.i18n raising `InvalidFallbackError` otherwise — so every
successfully constructed instance satisfies the invariant that the fallback
code is a key of the language table. -/
theorem init_establishes_fallback_invariant :
    (∀ (langs : List Lang) (fb : PyFallback) (inst : I18nInst),
      pyInit langs fb = .ok inst →
      ∃ fl, dget inst.languages inst.fallback = some fl) ∧
    (∀ (langs : List Lang) (s : String), (∀ l ∈ langs, l.code ≠ s) →
      pyInit langs (.str s) = .error (.invalidLocale s)) ∧
    (∀ (langs : List Lang) (s : String) (inst : I18nInst),
      dxInit langs s = .ok inst →
      ∃ fl, dget inst.languages inst.fallback = some fl) ∧
    (∀ (langs : List Lang) (s : String), (∀ l ∈ langs, l.code ≠ s) →
      dxInit langs s = .error (.invalidFallback s)) := by
  refine ⟨?_, ?_, ?_, ?_⟩
  · intro langs fb inst h
    cases fb with
    | str s =>
      simp only [pyInit] at h
      split at h
      · exact absurd h (by simp)
      · next hne =>
        injection h with h'
        subst h'
        rcases hd : dget (List.map (fun l => (l.code, l)) langs) s with _ | fl
        · exact absurd hd hne
        · exact ⟨fl, hd⟩
    | int n =>
      simp only [pyInit] at h
      rcases hg : langs[n]? with _ | l
      · simp [hg] at h
      · simp only [hg] at h
        split at h
        · exact absurd h (by simp)
        · next hne =>
          injection h with h'
          subst h'
          rcases hd : dget (List.map (fun l => (l.code, l)) langs) l.code with _ | fl
          · exact absurd hd hne
          · exact ⟨fl, hd⟩
  · intro langs s hcodes
    have hnone : dget (List.map (fun l => (l.code, l)) langs) s = none := by
      refine dget_of_forall_ne _ s (fun p hp => ?_)
      rcases List.mem_map.mp hp with ⟨l, hl, rfl⟩
      exact hcodes l hl
    simp only [pyInit]
    rw [if_pos hnone]
  · intro langs s inst h
    simp only [dxInit] at h
    split at h
    · exact absurd h (by simp)
    · next hne =>
      injection h with h'
      subst h'
      rcases hd : dget (List.map (fun l => (l.code, l)) langs) s with _ | fl
      · exact absurd hd hne
      · exact ⟨fl, hd⟩
  · intro langs s hcodes
    have hnone : dget (List.map (fun l => (l.code, l)) langs) s = none := by
      refine dget_of_forall_ne _ s (fun p hp => ?_)
      rcases List.mem_map.mp hp with ⟨l, hl, rfl⟩
      exact hcodes l hl
    simp only [dxInit]
    rw [if_pos hnone]

/-- Witness for C8: a fallback among the codes is accepted and establishes
the invariant; one that is not among the codes is rejected by both
constructors. -/
theorem init_establishes_fallback_invariant_witness :
    pyInit [⟨"English", "en", [("k", "hello")]⟩] (.str "en") =
      .ok ⟨[("en", ⟨"English", "en", [("k", "hello")]⟩)], "en"⟩ ∧
    (∃ fl, dget (I18nInst.mk [("en", ⟨"English", "en", [("k", "hello")]⟩)] "en").languages
      (I18nInst.mk [("en", ⟨"English", "en", [("k", "hello")]⟩)] "en").fallback = some fl) ∧
    (∀ l ∈ [(⟨"English", "en", [("k", "hello")]⟩ : Lang)], l.code ≠ "fr") ∧
    pyInit [⟨"English", "en", [("k", "hello")]⟩] (.str "fr") = .error (.invalidLocale "fr") ∧
    dxInit [⟨"English", "en", [("k", "hello")]⟩] "fr" = .error (.invalidFallback "fr") :=
  ⟨by decide,
    init_establishes_fallback_invariant.1 [⟨"English", "en", [("k", "hello")]⟩] (.str "en")
      ⟨[("en", ⟨"English", "en", [("k", "hello")]⟩)], "en"⟩ (by decide),
    by decide,
    init_establishes_fallback_invariant.2.1 [⟨"English", "en", [("k", "hello")]⟩] "fr"
      (by decide),
    init_establishes_fallback_invariant.2.2.2 [⟨"English", "en", [("k", "hello")]⟩] "fr"
      (by decide)⟩

/-- Delimiter-joined path relative to an accumulated nonroot key prefix, the
form the flattening recursion actually produces. -/
def joinKey (sep pfx : String) (p : List String) : String :=
  if pfx = "" then joinPath sep p else pfx ++ sep ++ joinPath sep p

theorem joinPath_cons (sep k : String) (p : List String) (hp : p ≠ []) :
    joinPath sep (k :: p) = k ++ sep ++ joinPath sep p := by
  cases p with
  | nil => exact absurd rfl hp
  | cons x xs => rfl

theorem childKey_ne_empty (sep pfx k : String) (hk : pfx = "" → k ≠ "") :
    childKey sep pfx k ≠ "" := by
  unfold childKey
  by_cases hp : pfx = ""
  · rw [if_pos hp]
    exact hk hp
  · rw [if_neg hp]
    intro hcon
    have hd := congrArg String.data hcon
    simp [String.data_append] at hd
    exact hp (congrArg String.mk hd.1)

theorem joinKey_compose (sep pfx k : String) (p : List String)
    (hk : pfx = "" → k ≠ "") (hp : p ≠ []) :
    joinKey sep (childKey sep pfx k) p = joinKey sep pfx (k :: p) := by
  unfold joinKey childKey
  by_cases hpfx : pfx = ""
  · subst hpfx
    rw [joinPath_cons sep k p hp]
    simp [hk rfl]
  · rw [if_neg hpfx, if_neg hpfx]
    have hck : pfx ++ sep ++ k ≠ "" := by
      intro hcon
      have hd := congrArg String.data hcon
      simp [String.data_append] at hd
      exact hpfx (congrArg String.mk hd.1)
    rw [if_neg hck, joinPath_cons sep k p hp]
    simp [String.append_assoc]

theorem entriesLeaves_paths_ne : ∀ (es : PyEntries), ∀ pl ∈ entriesLeaves es, pl.1 ≠ []
  | .nil => by simp [entriesLeaves]
  | .cons k v rest => by
    intro pl hpl
    simp only [entriesLeaves] at hpl
    rcases List.mem_append.mp hpl with hm | hm
    · rcases List.mem_map.mp hm with ⟨q, hq, rfl⟩
      simp
    · exact entriesLeaves_paths_ne rest pl hm

theorem elemsLeaves_paths_ne : ∀ (i : Nat) (es : PyElems), ∀ pl ∈ elemsLeaves i es, pl.1 ≠ []
  | _, .nil => by simp [elemsLeaves]
  | i, .cons v rest => by
    intro pl hpl
    simp only [elemsLeaves] at hpl
    rcases List.mem_append.mp hpl with hm | hm
    · rcases List.mem_map.mp hm with ⟨q, hq, rfl⟩
      simp
    · exact elemsLeaves_paths_ne (i + 1) rest pl hm

mutual
theorem dxFlattenEntries_eq (sep pfx : String) (es : PyEntries)
    (hne : neKeysEntries es = true) :
    dxFlattenEntries sep pfx es =
      (entriesLeaves es).map (fun pl => (joinKey sep pfx pl.1, pl.2)) := by
  cases es with
  | nil => rfl
  | cons k v rest =>
    simp only [neKeysEntries, Bool.and_eq_true, bne_iff_ne, ne_eq] at hne
    obtain ⟨⟨hk, hv⟩, hrest⟩ := hne
    simp only [dxFlattenEntries, entriesLeaves, List.map_append]
    rw [dxFlattenPair_eq sep pfx k v (fun _ => hk) hv,
      dxFlattenEntries_eq sep pfx rest hrest]
    simp [List.map_map, Function.comp]

theorem dxFlattenElems_eq (sep pfx : String) (i : Nat) (es : PyElems)
    (hpfx : pfx ≠ "") (hne : neKeysElems es = true) :
    dxFlattenElems sep pfx i es =
      (elemsLeaves i es).map (fun pl => (joinKey sep pfx pl.1, pl.2)) := by
  cases es with
  | nil => rfl
  | cons v rest =>
    simp only [neKeysElems, Bool.and_eq_true] at hne
    obtain ⟨hv, hrest⟩ := hne
    simp only [dxFlattenElems, elemsLeaves, List.map_append]
    rw [dxFlattenPair_eq sep pfx (toString i) v (fun h => absurd h hpfx) hv,
      dxFlattenElems_eq sep pfx (i + 1) rest hpfx hrest]
    simp [List.map_map, Function.comp]

theorem dxFlattenPair_eq (sep pfx k : String) (v : PyVal)
    (hk : pfx = "" → k ≠ "") (hne : neKeysVal v = true) :
    dxFlattenPair sep pfx k v =
      (valLeaves v).map (fun pl => (joinKey sep pfx (k :: pl.1), pl.2)) := by
  cases v with
  | leaf s => simp [dxFlattenPair, valLeaves, joinKey, childKey, joinPath]
  | dict es =>
    show dxFlattenEntries sep (childKey sep pfx k) es = _
    rw [dxFlattenEntries_eq sep (childKey sep pfx k) es hne]
    refine List.map_congr_left (fun pl hpl => ?_)
    rw [joinKey_compose sep pfx k pl.1 hk (entriesLeaves_paths_ne es pl hpl)]
  | list es =>
    show dxFlattenElems sep (childKey sep pfx k) 0 es = _
    rw [dxFlattenElems_eq sep (childKey sep pfx k) 0 es (childKey_ne_empty sep pfx k hk) hne]
    refine List.map_congr_left (fun pl hpl => ?_)
    rw [joinKey_compose sep pfx k pl.1 hk (elemsLeaves_paths_ne 0 es pl hpl)]
end

/-- C2 amended: on a nested dictionary whose map keys are nonempty,
discord.ext.i18n's `flatten_dict` emits exactly the delimiter-joined leaf
paths with their leaf values; when distinct leaves have distinct joined
paths, the resulting map sends each joined path to its leaf value. -/
theorem dxFlattenDict_correct :
    (∀ (sep : String) (es : PyEntries), neKeysEntries es = true →
      dxFlattenDict sep es =
        (entriesLeaves es).map (fun pl => (joinPath sep pl.1, pl.2))) ∧
    (∀ (sep : String) (es : PyEntries), neKeysEntries es = true →
      ((entriesLeaves es).map (fun pl => joinPath sep pl.1)).Nodup →
      ∀ p l, (p, l) ∈ entriesLeaves es →
        dget (dxFlattenDict sep es) (joinPath sep p) = some l) := by
  have h1 : ∀ (sep : String) (es : PyEntries), neKeysEntries es = true →
      dxFlattenDict sep es =
        (entriesLeaves es).map (fun pl => (joinPath sep pl.1, pl.2)) := by
    intro sep es hne
    unfold dxFlattenDict
    rw [dxFlattenEntries_eq sep "" es hne]
    refine List.map_congr_left (fun pl hpl => ?_)
    simp [joinKey]
  refine ⟨h1, ?_⟩
  intro sep es hne hnd p l hmem
  rw [h1 sep es hne]
  have hkeys : (((entriesLeaves es).map (fun pl => (joinPath sep pl.1, pl.2))).map
      Prod.fst) = (entriesLeaves es).map (fun pl => joinPath sep pl.1) := by
    simp [List.map_map, Function.comp]
  refine dget_nodup _ _ l (by rw [hkeys]; exact hnd) ?_
  exact List.mem_map_of_mem (fun pl => (joinPath sep pl.1, pl.2)) hmem

/-- Witness for the amended C2 on the two-leaf document
`\x7b"a": \x7b"b": "1"\x7d, "c": ["2"]\x7d`. -/
theorem dxFlattenDict_correct_witness :
    neKeysEntries (.cons "a" (.dict (.cons "b" (.leaf "1") .nil))
      (.cons "c" (.list (.cons (.leaf "2") .nil)) .nil)) = true ∧
    ((entriesLeaves (.cons "a" (.dict (.cons "b" (.leaf "1") .nil))
      (.cons "c" (.list (.cons (.leaf "2") .nil)) .nil))).map
        (fun pl => joinPath "." pl.1)).Nodup ∧
    dget (dxFlattenDict "." (.cons "a" (.dict (.cons "b" (.leaf "1") .nil))
      (.cons "c" (.list (.cons (.leaf "2") .nil)) .nil))) "a.b" = some (.leaf "1") :=
  ⟨by decide, by decide,
    dxFlattenDict_correct.2 "."
      (.cons "a" (.dict (.cons "b" (.leaf "1") .nil))
        (.cons "c" (.list (.cons (.leaf "2") .nil)) .nil))
      (by decide) (by decide) ["a", "b"] (.leaf "1") (List.Mem.head _)⟩

/-- C2 as stated is false at a key collision: in
`\x7b"a.b": "1", "a": \x7b"b": "2"\x7d\x7d` the leaf `"1"` sits at joined path
`a.b`, but the flat map's value at `a.b` is the other leaf `"2"` — a dict
cannot hold both leaves under the same joined key. -/
theorem dxFlattenDict_collision_eval :
    entriesLeaves (.cons "a.b" (.leaf "1")
        (.cons "a" (.dict (.cons "b" (.leaf "2") .nil)) .nil)) =
      [(["a.b"], .leaf "1"), (["a", "b"], .leaf "2")] ∧
    joinPath "." ["a.b"] = "a.b" ∧
    joinPath "." ["a", "b"] = "a.b" ∧
    dget (dxFlattenDict "." (.cons "a.b" (.leaf "1")
        (.cons "a" (.dict (.cons "b" (.leaf "2") .nil)) .nil))) "a.b" =
      some (.leaf "2") ∧
    some (PyVal.leaf "2") ≠ some (PyVal.leaf "1") :=
  ⟨rfl, rfl, rfl, rfl, by decide⟩

mutual
theorem pyFlattenEntries_eq_dx (sep pfx : String) (es : PyEntries)
    (ht : tameEntries es = true) :
    pyFlattenEntries sep pfx es = dxFlattenEntries sep pfx es := by
  cases es with
  | nil => rfl
  | cons k v rest =>
    simp only [tameEntries, Bool.and_eq_true, bne_iff_ne, ne_eq] at ht
    obtain ⟨⟨hk, hv⟩, hrest⟩ := ht
    cases v with
    | leaf s =>
      simp only [pyFlattenEntries, dxFlattenEntries, dxFlattenPair]
      rw [pyFlattenEntries_eq_dx sep pfx rest hrest]
    | dict es2 =>
      simp only [pyFlattenEntries, dxFlattenEntries, dxFlattenPair]
      rw [pyFlattenEntries_eq_dx sep (childKey sep pfx k) es2 hv,
        pyFlattenEntries_eq_dx sep pfx rest hrest]
    | list es2 =>
      simp only [pyFlattenEntries, dxFlattenEntries, dxFlattenPair]
      rw [pyFlattenItems_eq_dx sep (childKey sep pfx k) 0 es2
          (childKey_ne_empty sep pfx k (fun _ => hk)) hv,
        pyFlattenEntries_eq_dx sep pfx rest hrest]

theorem pyFlattenItems_eq_dx (sep newKey : String) (i : Nat) (es : PyElems)
    (hk : newKey ≠ "") (ht : tameElems es = true) :
    pyFlattenItems sep newKey i es = dxFlattenElems sep newKey i es := by
  cases es with
  | nil => rfl
  | cons v rest =>
    simp only [tameElems, Bool.and_eq_true] at ht
    obtain ⟨⟨hnl, hv⟩, hrest⟩ := ht
    have hck : childKey sep newKey (toString i) = newKey ++ sep ++ toString i := by
      simp [childKey, hk]
    cases v with
    | leaf s =>
      simp only [pyFlattenItems, dxFlattenElems, dxFlattenPair]
      rw [hck, pyFlattenItems_eq_dx sep newKey (i + 1) rest hk hrest]
    | dict es2 =>
      simp only [pyFlattenItems, dxFlattenElems, dxFlattenPair]
      rw [hck, pyFlattenEntries_eq_dx sep (newKey ++ sep ++ toString i) es2 hv,
        pyFlattenItems_eq_dx sep newKey (i + 1) rest hk hrest]
    | list es2 =>
      simp [isListVal] at hnl
end

/-- C7 amended: the two `flatten_dict` implementations agree on every nested
dictionary whose map keys are nonempty and in which no list element is itself
a list; they differ as soon as a list is nested directly inside a list, which
py18n stores as a leaf value while discord.ext.i18n recurses into it. -/
theorem pyFlattenDict_eq_dxFlattenDict (sep : String) (es : PyEntries)
    (ht : tameEntries es = true) :
    pyFlattenDict sep es = dxFlattenDict sep es := by
  unfold pyFlattenDict dxFlattenDict
  exact pyFlattenEntries_eq_dx sep "" es ht

/-- Witness for the amended C7 on `\x7b"a": \x7b"b": "1"\x7d, "c": ["2"]\x7d`. -/
theorem pyFlattenDict_eq_dxFlattenDict_witness :
    tameEntries (.cons "a" (.dict (.cons "b" (.leaf "1") .nil))
      (.cons "c" (.list (.cons (.leaf "2") .nil)) .nil)) = true ∧
    pyFlattenDict "." (.cons "a" (.dict (.cons "b" (.leaf "1") .nil))
        (.cons "c" (.list (.cons (.leaf "2") .nil)) .nil)) =
      dxFlattenDict "." (.cons "a" (.dict (.cons "b" (.leaf "1") .nil))
        (.cons "c" (.list (.cons (.leaf "2") .nil)) .nil)) :=
  ⟨by decide,
    pyFlattenDict_eq_dxFlattenDict "."
      (.cons "a" (.dict (.cons "b" (.leaf "1") .nil))
        (.cons "c" (.list (.cons (.leaf "2") .nil)) .nil))
      (by decide)⟩

/-- C7 as stated is false: on `\x7b"a": [["x"]]\x7d` py18n's `flatten_dict`
stores the inner list itself under `a.0` while discord.ext.i18n's recurses
into it and yields `a.0.0`. -/
theorem flatten_dict_impls_differ :
    pyFlattenDict "." (.cons "a" (.list (.cons (.list (.cons (.leaf "x") .nil)) .nil)) .nil) =
      [("a.0", .list (.cons (.leaf "x") .nil))] ∧
    dxFlattenDict "." (.cons "a" (.list (.cons (.list (.cons (.leaf "x") .nil)) .nil)) .nil) =
      [("a.0.0", .leaf "x")] ∧
    pyFlattenDict "." (.cons "a" (.list (.cons (.list (.cons (.leaf "x") .nil)) .nil)) .nil) ≠
      dxFlattenDict "." (.cons "a" (.list (.cons (.list (.cons (.leaf "x") .nil)) .nil)) .nil) :=
  ⟨rfl, rfl, by decide⟩

end DiscordI18n
